import Mathlib

/-!
Verification development for the bssim repository core.

Embedded from the source:
* `Util.Hash` — the global IPFS hash function (`util/util.go`, `Hash`):
  SHA2-256 multihash (multihash function code `0x12`, digest length 32).
* `Mount.ForceUnmountManyTimes` — the bounded unmount retry loop
  (`fuse/mount/mount.go`).
* `Commands.getCompressOptions` — gzip compression-option validation
  (`commands/get.go`).

The publish/resolve protocol (Identity, Record, Publisher, Resolver) is not
present in the source tree — only its test (`namesys/resolve_test.go`) and the
error declarations in `util/util.go` are — so those components are modelled
from the specification, with each such definition marked `Modelled from the
spec:` in its doc comment.

Bytes are modelled as `Nat`; 32-bit machine words as `Nat` reduced modulo
`2 ^ 32` wherever overflow matters.
-/

namespace Bssim

namespace Util

/-- Truncation to a 32-bit machine word. -/
def w32 (x : Nat) : Nat := x % 4294967296

/-- Right rotation of a 32-bit word by `n` bits (for `x < 2 ^ 32`). -/
def rotr32 (n x : Nat) : Nat := x / 2 ^ n + x % 2 ^ n * 2 ^ (32 - n)

/-- Logical right shift of a 32-bit word by `n` bits. -/
def shr32 (n x : Nat) : Nat := x / 2 ^ n

/-- Bitwise complement of a 32-bit word (for `x < 2 ^ 32`). -/
def not32 (x : Nat) : Nat := 4294967295 - x

/-- SHA-256 `Ch` function. -/
def ch (e f g : Nat) : Nat := (e &&& f) ^^^ (not32 e &&& g)

/-- SHA-256 `Maj` function. -/
def maj (a b c : Nat) : Nat := (a &&& b) ^^^ (a &&& c) ^^^ (b &&& c)

/-- SHA-256 big Σ₀. -/
def bigSigma0 (a : Nat) : Nat := rotr32 2 a ^^^ rotr32 13 a ^^^ rotr32 22 a

/-- SHA-256 big Σ₁. -/
def bigSigma1 (e : Nat) : Nat := rotr32 6 e ^^^ rotr32 11 e ^^^ rotr32 25 e

/-- SHA-256 small σ₀. -/
def smallSigma0 (x : Nat) : Nat := rotr32 7 x ^^^ rotr32 18 x ^^^ shr32 3 x

/-- SHA-256 small σ₁. -/
def smallSigma1 (x : Nat) : Nat := rotr32 17 x ^^^ rotr32 19 x ^^^ shr32 10 x

/-- The 64 SHA-256 round constants. -/
def sha256K : List Nat :=
  [1116352408, 1899447441, 3049323471, 3921009573, 961987163,
   1508970993, 2453635748, 2870763221, 3624381080, 310598401,
   607225278, 1426881987, 1925078388, 2162078206, 2614888103,
   3248222580, 3835390401, 4022224774, 264347078, 604807628,
   770255983, 1249150122, 1555081692, 1996064986, 2554220882,
   2821834349, 2952996808, 3210313671, 3336571891, 3584528711,
   113926993, 338241895, 666307205, 773529912, 1294757372,
   1396182291, 1695183700, 1986661051, 2177026350, 2456956037,
   2730485921, 2820302411, 3259730800, 3345764771, 3516065817,
   3600352804, 4094571909, 275423344, 430227734, 506948616,
   659060556, 883997877, 958139571, 1322822218, 1537002063,
   1747873779, 1955562222, 2024104815, 2227730452, 2361852424,
   2428436474, 2756734187, 3204031479, 3329325298]

/-- SHA-256 initial hash state. -/
def sha256H0 : List Nat :=
  [1779033703, 3144134277, 1013904242, 2773480762,
   1359893119, 2600822924, 528734635, 1541459225]

/-- Group a byte list into big-endian 32-bit words, four bytes per word. -/
def toWords : List Nat → List Nat
  | b0 :: b1 :: b2 :: b3 :: rest =>
      (((b0 * 256 + b1) * 256 + b2) * 256 + b3) :: toWords rest
  | _ => []

/-- Extend a 16-word block schedule by `n` further words. -/
def extendW : Nat → List Nat → List Nat
  | 0, w => w
  | n + 1, w =>
      extendW n (w ++ [w32 (smallSigma1 (w.get! (w.length - 2)) +
        w.get! (w.length - 7) + smallSigma0 (w.get! (w.length - 15)) +
        w.get! (w.length - 16))])

/-- One SHA-256 compression round: `kw` is the pair of round constant and
schedule word, `st` the eight-word working state. -/
def compressRound (st : List Nat) (kw : Nat × Nat) : List Nat :=
  match st with
  | [a, b, c, d, e, f, g, h] =>
      let t1 := w32 (h + bigSigma1 e + ch e f g + kw.1 + kw.2)
      let t2 := w32 (bigSigma0 a + maj a b c)
      [w32 (t1 + t2), a, b, c, w32 (d + t1), e, f, g]
  | other => other

/-- Process one 64-byte block, updating the eight-word hash state. -/
def processBlock (h : List Nat) (block : List Nat) : List Nat :=
  let w := extendW 48 (toWords block)
  let st := (sha256K.zip w).foldl compressRound h
  (h.zip st).map (fun p => w32 (p.1 + p.2))

/-- Big-endian byte expansion of `v` into `k` bytes. -/
def natToBytesBE : Nat → Nat → List Nat
  | 0, _ => []
  | k + 1, v => natToBytesBE k (v / 256) ++ [v % 256]

/-- SHA-256 padding: append `0x80`, zero bytes up to 56 mod 64, then the
bit length as eight big-endian bytes. -/
def sha256Pad (msg : List Nat) : List Nat :=
  msg ++ [128] ++ List.replicate ((119 - msg.length % 64) % 64) 0 ++
    natToBytesBE 8 (8 * msg.length)

/-- Fold the state over `n` successive 64-byte chunks of `msg`. -/
def sha256Blocks : Nat → List Nat → List Nat → List Nat
  | 0, h, _ => h
  | n + 1, h, msg => sha256Blocks n (processBlock h (msg.take 64)) (msg.drop 64)

/-- SHA-256 digest of a byte list, as 32 bytes. -/
def sha256 (msg : List Nat) : List Nat :=
  let padded := sha256Pad msg
  (sha256Blocks (padded.length / 64) sha256H0 padded).foldr
    (fun w acc => natToBytesBE 4 w ++ acc) []

/-- `Hash` from `util/util.go`: the global IPFS hash function, the SHA2-256
multihash — multihash function code `0x12` and digest length `0x20` followed
by the 32 SHA-256 digest bytes. -/
def Hash (data : List Nat) : List Nat := 18 :: 32 :: sha256 data

end Util

namespace Mount

/-- One step of the retry loop in `ForceUnmountManyTimes`
(`fuse/mount/mount.go`): `outcome i` is the error returned by the `i`-th call
of `ForceUnmount` (`none` = the Go `nil`), `rem` the remaining attempts, `i`
the index of the next attempt.  Returns the loop's result together with the
number of `ForceUnmount` calls performed. -/
def forceUnmountLoop (point : String) (outcome : Nat → Option String) :
    Nat → Nat → Option String × Nat
  | 0, _ =>
      (some ("Unmount " ++ point ++ " failed after 10 seconds of trying."), 0)
  | rem + 1, i =>
      match outcome i with
      | none => (none, 1)
      | some _ =>
          let r := forceUnmountLoop point outcome rem (i + 1)
          (r.1, r.2 + 1)

/-- `ForceUnmountManyTimes` from `fuse/mount/mount.go`: attempts
`ForceUnmount` up to `attempts` times, returning the first `nil` result, or
the final error when every attempt fails; the mount is represented by its
mount point `point`, and the effectful `ForceUnmount` by the oracle
`outcome`.  The second component counts the `ForceUnmount` calls made. -/
def ForceUnmountManyTimes (point : String) (outcome : Nat → Option String)
    (attempts : Nat) : Option String × Nat :=
  forceUnmountLoop point outcome attempts 0

end Mount

namespace Commands

/-- `gzip.NoCompression` from Go's `compress/gzip`. -/
def gzipNoCompression : Int := 0

/-- `gzip.DefaultCompression` from Go's `compress/gzip`. -/
def gzipDefaultCompression : Int := -1

/-- `ErrInvalidCompressionLevel` from `commands/get.go`. -/
def ErrInvalidCompressionLevel : String :=
  "Compression level must be between 1 and 9"

/-- `getCompressOptions` from `commands/get.go`: `cmprs` is the value of the
`compress` option, `cmplvl`/`cmplvlFound` the value and found-flag of the
`compression-level` option.  Returns the compression level and the error
(`none` = the Go `nil`). -/
def getCompressOptions (cmprs : Bool) (cmplvl : Int) (cmplvlFound : Bool) :
    Int × Option String :=
  if !cmprs then (gzipNoCompression, none)
  else if cmprs && !cmplvlFound then (gzipDefaultCompression, none)
  else if cmprs && cmplvlFound && (cmplvl < 1 || cmplvl > 9) then
    (gzipNoCompression, some ErrInvalidCompressionLevel)
  else (gzipNoCompression, none)

end Commands

namespace Namesys

/-- Modelled from the spec: the publish/resolve core (Identity, Record,
Publisher, Resolver of §2–§4) is absent from the source tree — only its test
and error declarations are present — so signatures are modelled symbolically:
a signature records which public key it verifies under and which bytes it
covers, so that `verify` succeeds exactly for the signer's own public key on
the canonically encoded record data. -/
structure Sig where
  signerPub : List Nat
  signed : List Nat
deriving DecidableEq, Repr

/-- Modelled from the spec: a Record (§3) — the signed, versioned binding of
a name to a pointer value: `value` the opaque pointer bytes, `sequence` the
per-Identity counter, `validity` an expiry instant (`none` = no expiry), the
signer's public key embedded per the design note of §9, and the signature
over the canonical encoding of `(value, sequence, validity)`. -/
structure Record where
  value : List Nat
  sequence : Nat
  validity : Option Nat
  pubKey : List Nat
  signature : Sig
deriving DecidableEq, Repr

/-- Modelled from the spec: an Identity (§3) — a public/private signing
keypair. -/
structure Identity where
  publicKey : List Nat
  privateKey : List Nat
deriving DecidableEq, Repr

/-- Modelled from the spec: the canonical, order-stable serialization of
`(value, sequence, validity)` that the signature covers (§4.2, §6);
length-prefixed so that the encoding is injective. -/
def encodeSigned (value : List Nat) (sequence : Nat) (validity : Option Nat) :
    List Nat :=
  (value.length :: value) ++ [sequence] ++
    (match validity with
     | none => [0]
     | some d => [1, d])

/-- Modelled from the spec: `sign(identity, value, sequence, validity)`
(§4.2) builds the canonical encoding and signs it with the Identity's key,
yielding the Record with the signer's public key embedded. -/
def sign (ident : Identity) (value : List Nat) (sequence : Nat)
    (validity : Option Nat) : Record :=
  { value := value, sequence := sequence, validity := validity,
    pubKey := ident.publicKey,
    signature :=
      { signerPub := ident.publicKey,
        signed := encodeSigned value sequence validity } }

/-- Modelled from the spec: the signature check inside `verify` (§4.2) —
recompute the canonical encoding and check the signature against the given
public key. -/
def sigOK (r : Record) (pub : List Nat) : Bool :=
  decide (r.signature =
    { signerPub := pub,
      signed := encodeSigned r.value r.sequence r.validity })

/-- Modelled from the spec: the expiry check inside `verify` (§4.2) — a
Record whose `validity` deadline is in the past (strictly before `now`) is
expired; `none` means no expiry. -/
def notExpired (now : Nat) (r : Record) : Bool :=
  match r.validity with
  | none => true
  | some d => decide (now ≤ d)

/-- Modelled from the spec: `verify(record, publicKey)` (§4.2) — checks the
signature over the canonical encoding and checks `validity` against the
current time; an expired Record is invalid regardless of signature. -/
def verify (now : Nat) (r : Record) (pub : List Nat) : Bool :=
  sigOK r pub && notExpired now r

/-- Modelled from the spec: the Record wire encoding (§6) — a canonical,
order-stable, length-prefixed serialization of
`(value, sequence, validity, signerPublicKey, signature)`. -/
def wireEncode (r : Record) : List Nat :=
  (r.value.length :: r.value) ++ [r.sequence] ++
    (match r.validity with
     | none => [0]
     | some d => [1, d]) ++
    (r.pubKey.length :: r.pubKey) ++
    (r.signature.signerPub.length :: r.signature.signerPub) ++
    (r.signature.signed.length :: r.signature.signed)

/-- Parse one length-prefixed byte list, returning it and the rest. -/
def decList : List Nat → Option (List Nat × List Nat)
  | [] => none
  | n :: rest =>
      if n ≤ rest.length then some (rest.take n, rest.drop n) else none

/-- Parse one optional instant (`0` tag = no expiry, `1` tag = deadline). -/
def decValidity : List Nat → Option (Option Nat × List Nat)
  | 0 :: rest => some (none, rest)
  | 1 :: d :: rest => some (some d, rest)
  | _ => none

/-- Modelled from the spec: the tagged decode step for raw candidate blobs
(§9) — the inverse of `wireEncode`, returning `none` on a malformed
candidate instead of panicking. -/
def decodeRecord (blob : List Nat) : Option Record :=
  match decList blob with
  | none => none
  | some (value, rest1) =>
    match rest1 with
    | [] => none
    | sequence :: rest2 =>
      match decValidity rest2 with
      | none => none
      | some (validity, rest3) =>
        match decList rest3 with
        | none => none
        | some (pubKey, rest4) =>
          match decList rest4 with
          | none => none
          | some (signerPub, rest5) =>
            match decList rest5 with
            | none => none
            | some (signed, rest6) =>
              match rest6 with
              | [] =>
                  some { value := value, sequence := sequence,
                         validity := validity, pubKey := pubKey,
                         signature :=
                           { signerPub := signerPub, signed := signed } }
              | _ => none

/-- Modelled from the spec: "latest validity deadline" comparison of §4.4
step 3 — `laterValidity a b` holds when deadline `a` is strictly later than
deadline `b`, where "no expiry" (`none`) counts as later than any finite
deadline. -/
def laterValidity : Option Nat → Option Nat → Bool
  | none, none => false
  | none, some _ => true
  | some _, none => false
  | some a, some b => decide (b < a)

/-- Strict lexicographic order on byte lists, for the final tie-break. -/
def lexLt : List Nat → List Nat → Bool
  | [], [] => false
  | [], _ :: _ => true
  | _ :: _, [] => false
  | a :: as_, b :: bs =>
      if a < b then true else if b < a then false else lexLt as_ bs

/-- Modelled from the spec: the conflict-resolution policy of §4.4 step 3 —
of two candidates prefer the higher `sequence`, then the later `validity`
deadline, then break remaining ties deterministically by lexicographic order
on the canonical wire encoding. -/
def chooseBetter (a b : Record) : Record :=
  if a.sequence < b.sequence then b
  else if b.sequence < a.sequence then a
  else if laterValidity b.validity a.validity then b
  else if laterValidity a.validity b.validity then a
  else if lexLt (wireEncode b) (wireEncode a) then b
  else a

/-- Modelled from the spec: selection among the surviving valid candidates
(§4.4 step 3) — fold the pairwise policy over the candidate list. -/
def selectBest : List Record → Option Record
  | [] => none
  | r :: rs =>
      match selectBest rs with
      | none => some r
      | some b => some (chooseBetter r b)

/-- Modelled from the spec: the per-candidate validity filter of §4.4 step 2
— a candidate survives iff `derive` of its embedded public key equals the
name being resolved (else it is forged/foreign) and `verify` succeeds. -/
def validCandidate (derive : List Nat → List Nat) (now : Nat)
    (name : List Nat) (r : Record) : Bool :=
  decide (derive r.pubKey = name) && verify now r r.pubKey

/-- Modelled from the spec: the Resolver's error taxonomy (§7), declared in
`util/util.go` as `ErrNotFound`, `ErrSearchIncomplete`, `ErrTimeout`. -/
inductive ResolveErr where
  | notFound
  | searchIncomplete
  | timeout
deriving DecidableEq, Repr

/-- Modelled from the spec: the candidates the substrate delivers before the
context ends (§4.4 step 1) — `blobs` is the substrate's lazy finite stream
in arrival order, and `cancelAfter` models the cancellation token: `some k`
means the token fires after `k` candidates have been delivered (`some 0` is
an already-cancelled token), `none` a token that never fires. -/
def delivered (cancelAfter : Option Nat) (blobs : List (List Nat)) :
    List (List Nat) :=
  match cancelAfter with
  | none => blobs
  | some k => blobs.take k

/-- Modelled from the spec: the surviving valid candidates of one resolve
call — the delivered blobs, deserialized (malformed ones discarded) and
filtered by the §4.4 step 2 validity check. -/
def survivors (derive : List Nat → List Nat) (now : Nat) (name : List Nat)
    (cancelAfter : Option Nat) (blobs : List (List Nat)) : List Record :=
  ((delivered cancelAfter blobs).filterMap decodeRecord).filter
    (validCandidate derive now name)

/-- Modelled from the spec: `resolve(name, ctx)` (§4.4) — deliver candidates
until exhaustion or cancellation, keep the valid ones, and return the
selected Record's value; with no valid candidate, fail with `Timeout` when
the token fired before the stream was exhausted, else with `NotFound`. -/
def resolve (derive : List Nat → List Nat) (now : Nat) (name : List Nat)
    (cancelAfter : Option Nat) (blobs : List (List Nat)) :
    Except ResolveErr (List Nat) :=
  match selectBest (survivors derive now name cancelAfter blobs) with
  | some r => .ok r.value
  | none =>
      match cancelAfter with
      | some k => if k < blobs.length then .error .timeout
                  else .error .notFound
      | none => .error .notFound

/-- Modelled from the spec: the Publisher's next sequence number (§4.3) —
strictly greater than the highest previously observed one (`none` when no
record was observed). -/
def nextSeq : Option Nat → Nat
  | none => 0
  | some s => s + 1

/-- Modelled from the spec: the Record built by `publish` (§4.3) — the next
sequence number, a validity deadline of `now` plus the configured lifetime,
signed by the owning Identity. -/
def publishRecord (ident : Identity) (newValue : List Nat)
    (prevSeq : Option Nat) (now lifetime : Nat) : Record :=
  sign ident newValue (nextSeq prevSeq) (some (now + lifetime))

/-- Modelled from the spec: the `(key, value)` pair `publish` hands to
`RoutingSubstrate.put` (§4.3) — key `derive(identity.publicKey)`, value the
serialized signed Record. -/
def publishPut (derive : List Nat → List Nat) (ident : Identity)
    (newValue : List Nat) (prevSeq : Option Nat) (now lifetime : Nat) :
    List Nat × List Nat :=
  (derive ident.publicKey,
   wireEncode (publishRecord ident newValue prevSeq now lifetime))

/-- Concrete keypair owning name `[7]` under `derive := fun x => x`. -/
def identA : Identity := { publicKey := [7], privateKey := [9] }

/-- Concrete keypair foreign to name `[7]`. -/
def identF : Identity := { publicKey := [8], privateKey := [9] }

/-- Value `[10]` published at sequence 1, deadline 100. -/
def recA : Record := sign identA [10] 1 (some 100)

/-- Value `[11]` published at sequence 2, deadline 100. -/
def recB : Record := sign identA [11] 2 (some 100)

/-- A second distinct record at sequence 2, deadline 100. -/
def recB2 : Record := sign identA [13] 2 (some 100)

/-- A forged record: validly signed, but by `identF`'s keypair. -/
def recF : Record := sign identF [12] 5 (some 100)

/-- An expired record: validly signed, deadline 3. -/
def recE : Record := sign identA [10] 1 (some 3)

/-- `noBetter c d`: candidate `d` does not beat candidate `c` under the
§4.4 step 3 policy — it has a strictly lower sequence, or an equal sequence
and a validity deadline that is not later. -/
def noBetter (c d : Record) : Prop :=
  d.sequence < c.sequence ∨
    (d.sequence = c.sequence ∧ laterValidity d.validity c.validity = false)

lemma decList_encode (xs rest : List Nat) :
    decList (xs.length :: (xs ++ rest)) = some (xs, rest) := by
  simp [decList, List.take_left, List.drop_left]

lemma decode_encode (r : Record) : decodeRecord (wireEncode r) = some r := by
  obtain ⟨value, sequence, validity, pubKey, signerPub, signed⟩ := r
  cases validity with
  | none =>
      simp only [wireEncode, List.cons_append, List.append_assoc]
      simp [decodeRecord, decList_encode, decValidity, decList]
  | some d =>
      simp only [wireEncode, List.cons_append, List.append_assoc]
      simp [decodeRecord, decList_encode, decValidity, decList]

lemma laterValidity_irrefl (x : Option Nat) : laterValidity x x = false := by
  cases x <;> simp [laterValidity]

lemma laterValidity_asymm {x y : Option Nat} (h : laterValidity x y = true) :
    laterValidity y x = false := by
  cases x <;> cases y <;> simp_all [laterValidity]
  all_goals omega

lemma laterValidity_false_trans {x y z : Option Nat}
    (h1 : laterValidity x y = false) (h2 : laterValidity y z = false) :
    laterValidity x z = false := by
  cases x <;> cases y <;> cases z <;> simp_all [laterValidity]
  all_goals omega

lemma noBetter_refl (c : Record) : noBetter c c :=
  Or.inr ⟨rfl, laterValidity_irrefl c.validity⟩

lemma noBetter_trans {a b c : Record} (h1 : noBetter a b) (h2 : noBetter b c) :
    noBetter a c := by
  rcases h1 with h1 | ⟨h1, h1v⟩ <;> rcases h2 with h2 | ⟨h2, h2v⟩
  · exact Or.inl (h2.trans h1)
  · exact Or.inl (h2 ▸ h1)
  · exact Or.inl (h1 ▸ h2)
  · exact Or.inr ⟨h2.trans h1, laterValidity_false_trans h2v h1v⟩

lemma chooseBetter_or (a b : Record) :
    chooseBetter a b = a ∨ chooseBetter a b = b := by
  unfold chooseBetter
  split_ifs <;> simp

lemma chooseBetter_noBetter_left (a b : Record) :
    noBetter (chooseBetter a b) a := by
  unfold chooseBetter
  split_ifs with h1 h2 h3 h4 h5
  · exact Or.inl h1
  · exact noBetter_refl a
  · exact Or.inr ⟨by omega, laterValidity_asymm h3⟩
  · exact noBetter_refl a
  · exact Or.inr ⟨by omega, by simpa using h4⟩
  · exact noBetter_refl a

lemma chooseBetter_noBetter_right (a b : Record) :
    noBetter (chooseBetter a b) b := by
  unfold chooseBetter
  split_ifs with h1 h2 h3 h4 h5
  · exact noBetter_refl b
  · exact Or.inl h2
  · exact noBetter_refl b
  · exact Or.inr ⟨by omega, laterValidity_asymm h4⟩
  · exact noBetter_refl b
  · exact Or.inr ⟨by omega, by simpa using h3⟩

lemma selectBest_cons_none {xs : List Record} (x : Record)
    (h : selectBest xs = none) : selectBest (x :: xs) = some x := by
  simp only [selectBest]
  rw [h]

lemma selectBest_cons_some {xs : List Record} (x b : Record)
    (h : selectBest xs = some b) :
    selectBest (x :: xs) = some (chooseBetter x b) := by
  simp only [selectBest]
  rw [h]

lemma selectBest_ne_none (rs : List Record) (h : rs ≠ []) :
    ∃ r, selectBest rs = some r := by
  cases rs with
  | nil => exact absurd rfl h
  | cons x xs =>
      cases hsel : selectBest xs with
      | none => exact ⟨x, selectBest_cons_none x hsel⟩
      | some b => exact ⟨chooseBetter x b, selectBest_cons_some x b hsel⟩

lemma selectBest_mem : ∀ {rs : List Record} {r : Record},
    selectBest rs = some r → r ∈ rs := by
  intro rs
  induction rs with
  | nil => intro r h; simp [selectBest] at h
  | cons x xs ih =>
      intro r h
      cases hsel : selectBest xs with
      | none =>
          rw [selectBest_cons_none x hsel] at h
          obtain rfl := (Option.some.inj h).symm
          exact List.mem_cons_self _ _
      | some b =>
          rw [selectBest_cons_some x b hsel] at h
          obtain rfl := (Option.some.inj h).symm
          rcases chooseBetter_or x b with hc | hc <;> rw [hc]
          · exact List.mem_cons_self _ _
          · exact List.mem_cons_of_mem _ (ih hsel)

lemma selectBest_best : ∀ {rs : List Record} {r : Record},
    selectBest rs = some r → ∀ d ∈ rs, noBetter r d := by
  intro rs
  induction rs with
  | nil => intro r h; simp [selectBest] at h
  | cons x xs ih =>
      intro r h d hd
      cases hsel : selectBest xs with
      | none =>
          rw [selectBest_cons_none x hsel] at h
          obtain rfl := (Option.some.inj h).symm
          cases xs with
          | nil =>
              rcases List.mem_singleton.mp hd with rfl
              exact noBetter_refl _
          | cons y ys =>
              obtain ⟨b, hb⟩ := selectBest_ne_none (y :: ys) (by simp)
              rw [hb] at hsel
              exact Option.noConfusion hsel
      | some b =>
          rw [selectBest_cons_some x b hsel] at h
          obtain rfl := (Option.some.inj h).symm
          rcases List.mem_cons.mp hd with rfl | hd'
          · exact chooseBetter_noBetter_left _ b
          · exact noBetter_trans (chooseBetter_noBetter_right _ b)
              (ih hsel d hd')

lemma mem_survivors_iff {derive : List Nat → List Nat} {now : Nat}
    {name : List Nat} {cancelAfter : Option Nat} {blobs : List (List Nat)}
    {r : Record} :
    r ∈ survivors derive now name cancelAfter blobs ↔
      (∃ b ∈ delivered cancelAfter blobs, decodeRecord b = some r) ∧
        validCandidate derive now name r = true := by
  simp [survivors, List.mem_filter, List.mem_filterMap]

lemma resolve_eq_ok {derive : List Nat → List Nat} {now : Nat}
    {name : List Nat} {cancelAfter : Option Nat} {blobs : List (List Nat)}
    {v : List Nat}
    (h : resolve derive now name cancelAfter blobs = .ok v) :
    ∃ r, selectBest (survivors derive now name cancelAfter blobs) = some r ∧
      r.value = v := by
  unfold resolve at h
  cases hsel : selectBest (survivors derive now name cancelAfter blobs) with
  | none =>
      rw [hsel] at h
      cases cancelAfter with
      | none => exact Except.noConfusion h
      | some k =>
          by_cases hk : k < blobs.length <;> simp [hk] at h
  | some r =>
      rw [hsel] at h
      exact ⟨r, rfl, Except.ok.inj h⟩

lemma resolve_of_selectBest {derive : List Nat → List Nat} {now : Nat}
    {name : List Nat} {cancelAfter : Option Nat} {blobs : List (List Nat)}
    {r : Record}
    (h : selectBest (survivors derive now name cancelAfter blobs) = some r) :
    resolve derive now name cancelAfter blobs = .ok r.value := by
  unfold resolve
  rw [h]

lemma resolve_no_survivors_none {derive : List Nat → List Nat} {now : Nat}
    {name : List Nat} {blobs : List (List Nat)}
    (h : survivors derive now name none blobs = []) :
    resolve derive now name none blobs = .error .notFound := by
  unfold resolve
  rw [h]
  rfl

lemma resolve_no_survivors_cancelled {derive : List Nat → List Nat}
    {now : Nat} {name : List Nat} {k : Nat} {blobs : List (List Nat)}
    (h : survivors derive now name (some k) blobs = [])
    (hk : k < blobs.length) :
    resolve derive now name (some k) blobs = .error .timeout := by
  unfold resolve
  rw [h]
  simp [selectBest, hk]

lemma valid_of_mem_survivors {derive : List Nat → List Nat} {now : Nat}
    {name : List Nat} {cancelAfter : Option Nat} {blobs : List (List Nat)}
    {r : Record} (h : r ∈ survivors derive now name cancelAfter blobs) :
    derive r.pubKey = name ∧ verify now r r.pubKey = true := by
  have hv := (mem_survivors_iff.mp h).2
  simp only [validCandidate, Bool.and_eq_true, decide_eq_true_eq] at hv
  exact hv

/-- C1: in every resolve call that succeeds, the returned value belongs to a
surviving valid candidate that maximizes the sequence number among all
surviving valid candidates; any other survivor either has a strictly lower
sequence, or the same sequence and a validity deadline that is not later.
In particular, with value A at sequence 1 and value B at sequence 2 both
observed, resolve returns B, never A. -/
theorem resolve_selects_highest_sequence
    (derive : List Nat → List Nat) (now : Nat) (name : List Nat)
    (cancelAfter : Option Nat) (blobs : List (List Nat)) (v : List Nat)
    (h : resolve derive now name cancelAfter blobs = .ok v) :
    ∃ r ∈ survivors derive now name cancelAfter blobs,
      r.value = v ∧
      ∀ d ∈ survivors derive now name cancelAfter blobs,
        d.sequence < r.sequence ∨
          (d.sequence = r.sequence ∧
            laterValidity d.validity r.validity = false) := by
  obtain ⟨r, hsel, hv⟩ := resolve_eq_ok h
  exact ⟨r, selectBest_mem hsel, hv, fun d hd => selectBest_best hsel d hd⟩

/-- C1 witness: value `[10]` published at sequence 1 (`recA`) and value
`[11]` at sequence 2 (`recB`); resolve observing both returns `[11]`. -/
theorem resolve_selects_highest_sequence_witness :
    ∃ r ∈ survivors (fun x => x) 10 [7] none
        [wireEncode recA, wireEncode recB],
      r.value = [11] ∧
      ∀ d ∈ survivors (fun x => x) 10 [7] none
          [wireEncode recA, wireEncode recB],
        d.sequence < r.sequence ∨
          (d.sequence = r.sequence ∧
            laterValidity d.validity r.validity = false) :=
  resolve_selects_highest_sequence (fun x => x) 10 [7] none
    [wireEncode recA, wireEncode recB] [11] rfl

/-- C2: a candidate Record whose embedded public key does not derive to the
name being resolved never survives the Resolver's filter, and a resolve
whose candidate set contains only such forged candidates fails with
`NotFound`. -/
theorem resolve_rejects_forged (derive : List Nat → List Nat) (now : Nat)
    (name : List Nat) :
    (∀ cancelAfter blobs r, derive r.pubKey ≠ name →
        r ∉ survivors derive now name cancelAfter blobs) ∧
    (∀ blobs : List (List Nat),
        (∀ b ∈ blobs, ∀ r, decodeRecord b = some r →
            derive r.pubKey ≠ name) →
        resolve derive now name none blobs = .error .notFound) := by
  constructor
  · intro cancelAfter blobs r hne hmem
    exact hne (valid_of_mem_survivors hmem).1
  · intro blobs hall
    apply resolve_no_survivors_none
    apply List.eq_nil_iff_forall_not_mem.mpr
    intro r hmem
    obtain ⟨⟨b, hb, hdec⟩, _⟩ := mem_survivors_iff.mp hmem
    exact hall b hb r hdec (valid_of_mem_survivors hmem).1

/-- C2 witness: `recF` carries a valid signature under `identF`'s keypair
but its public key `[8]` does not derive to the name `[7]`; it is discarded,
and a resolve over only this forgery returns `NotFound`. -/
theorem resolve_rejects_forged_witness :
    recF ∉ survivors (fun x => x) 10 [7] none [wireEncode recF] ∧
      resolve (fun x => x) 10 [7] none [wireEncode recF] =
        .error .notFound := by
  constructor
  · exact (resolve_rejects_forged (fun x => x) 10 [7]).1 none
      [wireEncode recF] recF (by decide)
  · exact (resolve_rejects_forged (fun x => x) 10 [7]).2 [wireEncode recF]
      (by
        intro b hb r hr
        rcases List.mem_singleton.mp hb with rfl
        rw [decode_encode recF] at hr
        obtain rfl := (Option.some.inj hr).symm
        decide)

/-- C3: for every Identity and pointer value, resolving
`derive(identity.publicKey)` immediately after a single successful publish,
over a substrate that returns exactly the blob that was put, yields exactly
the published value. -/
theorem publish_resolve_roundtrip (derive : List Nat → List Nat)
    (ident : Identity) (value : List Nat) (prevSeq : Option Nat)
    (now lifetime : Nat) :
    resolve derive now
      (publishPut derive ident value prevSeq now lifetime).1 none
      [(publishPut derive ident value prevSeq now lifetime).2] =
      .ok value := by
  have hdec := decode_encode (publishRecord ident value prevSeq now lifetime)
  have hvalid : validCandidate derive now (derive ident.publicKey)
      (publishRecord ident value prevSeq now lifetime) = true := by
    simp [validCandidate, publishRecord, sign, verify, sigOK, notExpired]
  have hsurv : survivors derive now (derive ident.publicKey) none
      [wireEncode (publishRecord ident value prevSeq now lifetime)] =
      [publishRecord ident value prevSeq now lifetime] := by
    simp [survivors, delivered, List.filterMap_cons, hdec, hvalid]
  show resolve derive now (derive ident.publicKey) none
      [wireEncode (publishRecord ident value prevSeq now lifetime)] =
      .ok value
  have hsel : selectBest (survivors derive now (derive ident.publicKey)
      none [wireEncode (publishRecord ident value prevSeq now lifetime)]) =
      some (publishRecord ident value prevSeq now lifetime) := by
    rw [hsurv]
    exact selectBest_cons_none _ rfl
  rw [resolve_of_selectBest hsel]
  simp [publishRecord, sign]

/-- C4: resolve fails with `NotFound` when the substrate yields zero
candidates, and when it yields only invalid or forged candidates (no
survivor); every resolve error is `NotFound` or `Timeout` — individual
verification failures are filtered silently, never surfaced as a distinct
error type — and every success value comes from a surviving candidate that
passed the validity check. -/
theorem resolve_notFound_policy (derive : List Nat → List Nat) (now : Nat)
    (name : List Nat) :
    (∀ cancelAfter, resolve derive now name cancelAfter [] =
        .error .notFound) ∧
    (∀ blobs : List (List Nat),
        survivors derive now name none blobs = [] →
        resolve derive now name none blobs = .error .notFound) ∧
    (∀ cancelAfter blobs e,
        resolve derive now name cancelAfter blobs = .error e →
        e = .notFound ∨ e = .timeout) ∧
    (∀ cancelAfter blobs v,
        resolve derive now name cancelAfter blobs = .ok v →
        ∃ r ∈ survivors derive now name cancelAfter blobs,
          r.value = v ∧ validCandidate derive now name r = true) := by
  refine ⟨?_, ?_, ?_, ?_⟩
  · intro cancelAfter
    have hsurv : survivors derive now name cancelAfter [] = [] := by
      cases cancelAfter <;> simp [survivors, delivered]
    unfold resolve
    rw [hsurv]
    cases cancelAfter with
    | none => rfl
    | some k => simp [selectBest]
  · intro blobs h
    exact resolve_no_survivors_none h
  · intro cancelAfter blobs e h
    unfold resolve at h
    cases hsel : selectBest (survivors derive now name cancelAfter blobs) with
    | some r => rw [hsel] at h; exact Except.noConfusion h
    | none =>
        rw [hsel] at h
        cases cancelAfter with
        | none => exact Or.inl (Except.error.inj h).symm
        | some k =>
            by_cases hk : k < blobs.length <;> simp [hk] at h
            · exact Or.inr h.symm
            · exact Or.inl h.symm
  · intro cancelAfter blobs v h
    obtain ⟨r, hsel, hv⟩ := resolve_eq_ok h
    exact ⟨r, selectBest_mem hsel, hv,
      (mem_survivors_iff.mp (selectBest_mem hsel)).2⟩

/-- C4 witness: `NotFound` on an empty candidate stream and on a stream
holding a single malformed blob; a concrete error is classified; the
successful resolve of `recB` returns a surviving valid candidate's value. -/
theorem resolve_notFound_policy_witness :
    resolve (fun x => x) 10 [7] (some 5) [] = .error .notFound ∧
    resolve (fun x => x) 10 [7] none [[0]] = .error .notFound ∧
    (ResolveErr.notFound = .notFound ∨ ResolveErr.notFound = .timeout) ∧
    (∃ r ∈ survivors (fun x => x) 10 [7] none [wireEncode recB],
        r.value = [11] ∧ validCandidate (fun x => x) 10 [7] r = true) :=
  ⟨(resolve_notFound_policy (fun x => x) 10 [7]).1 (some 5),
   (resolve_notFound_policy (fun x => x) 10 [7]).2.1 [[0]] rfl,
   (resolve_notFound_policy (fun x => x) 10 [7]).2.2.1 none []
     .notFound rfl,
   (resolve_notFound_policy (fun x => x) 10 [7]).2.2.2 none
     [wireEncode recB] [11] rfl⟩

/-- C5: a Record whose validity deadline lies strictly before the current
time fails `verify` regardless of its signature, and a resolve whose
candidate set contains only expired Records fails with `NotFound`. -/
theorem resolve_rejects_expired (derive : List Nat → List Nat) (now : Nat)
    (name : List Nat) :
    (∀ (r : Record) (pub : List Nat) (d : Nat),
        r.validity = some d → d < now → verify now r pub = false) ∧
    (∀ blobs : List (List Nat),
        (∀ b ∈ blobs, ∀ r, decodeRecord b = some r →
            ∃ d, r.validity = some d ∧ d < now) →
        resolve derive now name none blobs = .error .notFound) := by
  constructor
  · intro r pub d h1 h2
    have hexp : notExpired now r = false := by
      simp [notExpired, h1]
      omega
    simp [verify, hexp]
  · intro blobs hall
    apply resolve_no_survivors_none
    apply List.eq_nil_iff_forall_not_mem.mpr
    intro r hmem
    obtain ⟨⟨b, hb, hdec⟩, _⟩ := mem_survivors_iff.mp hmem
    obtain ⟨d, hd, hlt⟩ := hall b hb r hdec
    have hver := (valid_of_mem_survivors hmem).2
    have hexp : notExpired now r = false := by
      simp [notExpired, hd]
      omega
    simp [verify, hexp] at hver

/-- C5 witness: `recE` has a valid signature under its own key `[7]` but its
deadline 3 lies before the current time 10, so `verify` rejects it, and a
resolve over only `recE` returns `NotFound`. -/
theorem resolve_rejects_expired_witness :
    sigOK recE [7] = true ∧ verify 10 recE [7] = false ∧
      resolve (fun x => x) 10 [7] none [wireEncode recE] =
        .error .notFound := by
  refine ⟨by decide, ?_, ?_⟩
  · exact (resolve_rejects_expired (fun x => x) 10 [7]).1 recE [7] 3
      rfl (by omega)
  · exact (resolve_rejects_expired (fun x => x) 10 [7]).2 [wireEncode recE]
      (by
        intro b hb r hr
        rcases List.mem_singleton.mp hb with rfl
        rw [decode_encode recE] at hr
        obtain rfl := (Option.some.inj hr).symm
        exact ⟨3, rfl, by omega⟩)

/-- C6: when the cancellation token fires before the candidate stream is
exhausted and no valid candidate was delivered, resolve fails with
`Timeout`; in particular an already-cancelled token yields `Timeout` even
when the substrate stream holds a valid candidate. -/
theorem resolve_timeout_on_cancellation (derive : List Nat → List Nat)
    (now : Nat) (name : List Nat) :
    (∀ (blobs : List (List Nat)) (k : Nat), k < blobs.length →
        survivors derive now name (some k) blobs = [] →
        resolve derive now name (some k) blobs = .error .timeout) ∧
    (∀ blobs : List (List Nat),
        (∃ b ∈ blobs, ∃ r, decodeRecord b = some r ∧
            validCandidate derive now name r = true) →
        resolve derive now name (some 0) blobs = .error .timeout) := by
  constructor
  · intro blobs k hk hs
    exact resolve_no_survivors_cancelled hs hk
  · intro blobs hex
    obtain ⟨b, hb, _⟩ := hex
    have hlen : 0 < blobs.length := List.length_pos.mpr
      (List.ne_nil_of_mem hb)
    have hs : survivors derive now name (some 0) blobs = [] := by
      simp [survivors, delivered]
    exact resolve_no_survivors_cancelled hs hlen

/-- C6 witness: over the stream holding the valid candidate `recB`, a token
firing after zero deliveries (`some 0`, an already-cancelled token) makes
resolve return `Timeout`, both via the general mid-stream case and via the
already-cancelled case. -/
theorem resolve_timeout_on_cancellation_witness :
    resolve (fun x => x) 10 [7] (some 0) [wireEncode recB] =
        .error .timeout ∧
      resolve (fun x => x) 10 [7] (some 0) [wireEncode recB] =
        .error .timeout :=
  ⟨(resolve_timeout_on_cancellation (fun x => x) 10 [7]).1
      [wireEncode recB] 0 (by decide) rfl,
   (resolve_timeout_on_cancellation (fun x => x) 10 [7]).2
      [wireEncode recB]
      ⟨wireEncode recB, List.mem_singleton.mpr rfl, recB, decode_encode recB,
        by decide⟩⟩

/-- C7: resolve is deterministic on identical candidate sets — on a set
containing two distinct valid Records with equal sequence and equal validity
deadline, two runs of resolve over the identical set both succeed and both
select the identical value. -/
theorem resolve_tie_deterministic (derive : List Nat → List Nat) (now : Nat)
    (name : List Nat) (blobs : List (List Nat)) (a b : Record)
    (ha : a ∈ survivors derive now name none blobs)
    (_hb : b ∈ survivors derive now name none blobs)
    (_hne : a ≠ b) (_hseq : a.sequence = b.sequence)
    (_hval : a.validity = b.validity) :
    ∃ v, resolve derive now name none blobs = .ok v ∧
      resolve derive now name none blobs = .ok v := by
  have hne : survivors derive now name none blobs ≠ [] := by
    intro h
    rw [h] at ha
    exact List.not_mem_nil a ha
  obtain ⟨r, hsel⟩ := selectBest_ne_none _ hne
  exact ⟨r.value, resolve_of_selectBest hsel, resolve_of_selectBest hsel⟩

/-- C7 witness: `recB` and `recB2` are distinct valid candidates for name
`[7]` with equal sequence 2 and equal deadline 100; resolve over the set
holding both returns one identical value both times. -/
theorem resolve_tie_deterministic_witness :
    ∃ v, resolve (fun x => x) 10 [7] none
          [wireEncode recB, wireEncode recB2] = .ok v ∧
        resolve (fun x => x) 10 [7] none
          [wireEncode recB, wireEncode recB2] = .ok v :=
  resolve_tie_deterministic (fun x => x) 10 [7]
    [wireEncode recB, wireEncode recB2] recB recB2
    (by decide) (by decide) (by decide) rfl rfl

end Namesys

/-- C8: the name-derivation function is deterministic — two applications of
`Util.Hash` (the SHA2-256 multihash) to equal byte strings yield equal
names, and the result is always the SHA2-256 multihash of the input. -/
theorem hash_deterministic (d₁ d₂ : List Nat) (h : d₁ = d₂) :
    Util.Hash d₁ = Util.Hash d₂ ∧
      Util.Hash d₁ = 18 :: 32 :: Util.sha256 d₁ := by
  rw [h]
  exact ⟨rfl, rfl⟩

/-- C8 witness: both applications of `Util.Hash` to the empty byte string
agree. -/
theorem hash_deterministic_witness :
    Util.Hash [] = Util.Hash [] ∧
      Util.Hash [] = 18 :: 32 :: Util.sha256 [] :=
  hash_deterministic [] [] rfl

lemma forceUnmountLoop_calls_le (point : String)
    (outcome : Nat → Option String) :
    ∀ rem i, (Mount.forceUnmountLoop point outcome rem i).2 ≤ rem := by
  intro rem
  induction rem with
  | zero => intro i; simp [Mount.forceUnmountLoop]
  | succ n ih =>
      intro i
      simp only [Mount.forceUnmountLoop]
      cases outcome i with
      | none => simp
      | some e => simpa using ih (i + 1)

lemma forceUnmountLoop_first_success (point : String)
    (outcome : Nat → Option String) :
    ∀ rem k i, k < rem → outcome (i + k) = none →
      (∀ j, j < k → outcome (i + j) ≠ none) →
      Mount.forceUnmountLoop point outcome rem i = (none, k + 1) := by
  intro rem
  induction rem with
  | zero => intro k i hk; omega
  | succ n ih =>
      intro k i hk hsucc hfail
      cases k with
      | zero =>
          simp only [Nat.add_zero] at hsucc
          simp [Mount.forceUnmountLoop, hsucc]
      | succ m =>
          have h0 : outcome i ≠ none := by
            have := hfail 0 (Nat.succ_pos m)
            simpa using this
          simp only [Mount.forceUnmountLoop]
          cases hout : outcome i with
          | none => exact absurd hout h0
          | some e =>
              have hrec := ih m (i + 1) (by omega)
                (by rw [show i + 1 + m = i + (m + 1) by omega]; exact hsucc)
                (by
                  intro j hj
                  rw [show i + 1 + j = i + (j + 1) by omega]
                  exact hfail (j + 1) (by omega))
              simp [hrec]

lemma forceUnmountLoop_all_fail (point : String)
    (outcome : Nat → Option String) :
    ∀ rem i, (∀ k, k < rem → outcome (i + k) ≠ none) →
      Mount.forceUnmountLoop point outcome rem i =
        (some ("Unmount " ++ point ++
          " failed after 10 seconds of trying."), rem) := by
  intro rem
  induction rem with
  | zero => intro i _; simp [Mount.forceUnmountLoop]
  | succ n ih =>
      intro i hfail
      have h0 : outcome i ≠ none := by
        have := hfail 0 (Nat.succ_pos n)
        simpa using this
      simp only [Mount.forceUnmountLoop]
      cases hout : outcome i with
      | none => exact absurd hout h0
      | some e =>
          have hrec := ih (i + 1) (by
            intro k hk
            rw [show i + 1 + k = i + (k + 1) by omega]
            exact hfail (k + 1) (by omega))
          simp [hrec]

/-- C9: `ForceUnmountManyTimes` calls `ForceUnmount` at most `attempts`
times; it returns the Go `nil` as soon as some attempt succeeds, performing
exactly the calls up to and including the first success; and when all
`attempts` attempts fail it performs them all and returns a non-`nil`
error. -/
theorem forceUnmountManyTimes_bounded_retry (point : String)
    (outcome : Nat → Option String) (attempts : Nat) :
    (Mount.ForceUnmountManyTimes point outcome attempts).2 ≤ attempts ∧
    (∀ i, i < attempts → outcome i = none →
        (∀ j, j < i → outcome j ≠ none) →
        Mount.ForceUnmountManyTimes point outcome attempts =
          (none, i + 1)) ∧
    ((∀ i, i < attempts → outcome i ≠ none) →
        Mount.ForceUnmountManyTimes point outcome attempts =
          (some ("Unmount " ++ point ++
            " failed after 10 seconds of trying."), attempts)) := by
  refine ⟨forceUnmountLoop_calls_le point outcome attempts 0, ?_, ?_⟩
  · intro i hi hsucc hfail
    exact forceUnmountLoop_first_success point outcome attempts i 0 hi
      (by simpa using hsucc) (by simpa using hfail)
  · intro hfail
    exact forceUnmountLoop_all_fail point outcome attempts 0
      (by simpa using hfail)

/-- C9 witness: with the first attempt failing and the second succeeding,
three permitted attempts stop after two calls and return `nil`; with every
attempt failing, two permitted attempts perform both and return the error;
the call count is bounded. -/
theorem forceUnmountManyTimes_bounded_retry_witness :
    Mount.ForceUnmountManyTimes "p"
        (fun i => if i = 1 then none else some "e") 3 = (none, 2) ∧
      Mount.ForceUnmountManyTimes "p" (fun _ => some "e") 2 =
        (some "Unmount p failed after 10 seconds of trying.", 2) ∧
      (Mount.ForceUnmountManyTimes "p" (fun _ => some "e") 2).2 ≤ 2 :=
  ⟨(forceUnmountManyTimes_bounded_retry "p"
      (fun i => if i = 1 then none else some "e") 3).2.1 1 (by omega) rfl
      (by decide),
   (forceUnmountManyTimes_bounded_retry "p" (fun _ => some "e") 2).2.2
      (fun i _ => by simp),
   (forceUnmountManyTimes_bounded_retry "p" (fun _ => some "e") 2).1⟩

/-- C10: `getCompressOptions` errors exactly when the compress option is
set, a compression level was supplied, and that level is outside 1..9; in
every non-error case the result is `gzip.NoCompression` (compress unset, or
compress set with an explicit in-range level) or `gzip.DefaultCompression`
(compress set with no explicit level); the returned level is always one of
those two constants, so a user-supplied level in 1..9 is never returned. -/
theorem getCompressOptions_policy (cmprs : Bool) (cmplvl : Int)
    (found : Bool) :
    ((Commands.getCompressOptions cmprs cmplvl found).2 ≠ none ↔
        (cmprs = true ∧ found = true ∧ (cmplvl < 1 ∨ 9 < cmplvl))) ∧
    ((Commands.getCompressOptions cmprs cmplvl found).1 =
        Commands.gzipNoCompression ∨
      (Commands.getCompressOptions cmprs cmplvl found).1 =
        Commands.gzipDefaultCompression) ∧
    (cmprs = false →
        Commands.getCompressOptions cmprs cmplvl found =
          (Commands.gzipNoCompression, none)) ∧
    (cmprs = true → found = true → 1 ≤ cmplvl → cmplvl ≤ 9 →
        Commands.getCompressOptions cmprs cmplvl found =
          (Commands.gzipNoCompression, none)) ∧
    (cmprs = true → found = false →
        Commands.getCompressOptions cmprs cmplvl found =
          (Commands.gzipDefaultCompression, none)) := by
  cases cmprs <;> cases found <;>
    simp only [Commands.getCompressOptions] <;> split_ifs <;> simp_all
  all_goals omega

/-- C10 witness: compress set with explicit level 5 yields no error and
`gzip.NoCompression`, not the user level; compress set with level 12 errors;
compress unset yields no error; compress set without a level yields
`gzip.DefaultCompression`. -/
theorem getCompressOptions_policy_witness :
    ((Commands.getCompressOptions true 5 true).2 ≠ none ↔
        (true = true ∧ true = true ∧ ((5 : Int) < 1 ∨ 9 < (5 : Int)))) ∧
      Commands.getCompressOptions true 5 true =
        (Commands.gzipNoCompression, none) ∧
      ((Commands.getCompressOptions true 12 true).2 ≠ none ↔
        (true = true ∧ true = true ∧ ((12 : Int) < 1 ∨ 9 < (12 : Int)))) ∧
      Commands.getCompressOptions false 5 true =
        (Commands.gzipNoCompression, none) ∧
      Commands.getCompressOptions true 5 false =
        (Commands.gzipDefaultCompression, none) :=
  ⟨(getCompressOptions_policy true 5 true).1,
   (getCompressOptions_policy true 5 true).2.2.2.1 rfl rfl (by omega)
     (by omega),
   (getCompressOptions_policy true 12 true).1,
   (getCompressOptions_policy false 5 true).2.2.1 rfl,
   (getCompressOptions_policy true 5 false).2.2.2.2 rfl rfl⟩

end Bssim
